import Mathlib

/-!
Verification development for the Meraki policy-object / MX L3-outbound-rule
provisioning tool (`src/main.py`, `src/meraki_api.py`).

Python dictionaries of string keys are embedded as association lists with
first-match lookup; Python `None` and string values are embedded by `PyVal`;
a raised exception is embedded as `Option.none` of the surrounding result.
Remote (Meraki dashboard) calls are embedded as an oracle (`Remote`) giving
the outcome of each call, and the driver records the sequence of remote
calls it issues (`RemoteCall`).
-/

/-- A Python value occurring in a rule/config dict: a string or `None`. -/
inductive PyVal where
  | vstr : String → PyVal
  | vnone : PyVal
deriving DecidableEq, Repr

/-- A rule / config dict: association list, first-match lookup. -/
abbrev Rule := List (String × PyVal)

/-- Python `dic[key]` on a string-keyed dict (as `Option`; `none` = `KeyError`). -/
def lookupField : Rule → String → Option PyVal
  | [], _ => Option.none
  | (k, v) :: rest, f => if k = f then some v else lookupField rest f

/-- Python `str.lower()`: lowercase every character. -/
def strLower (s : String) : String := String.mk (s.data.map Char.toLower)

/-- `dic[key].lower()`: `none` embeds a `KeyError` (missing key) or an
`AttributeError` (`None.lower()`). -/
def getStrLower (dic : Rule) (field : String) : Option String :=
  match lookupField dic field with
  | some (PyVal.vstr s) => some (strLower s)
  | _ => Option.none

/-- The six identity fields of `combine_lists` (`main.py` line 56). -/
def key_fields : List String := ["policy", "protocol", "srcCidr", "destCidr", "srcPort", "destPort"]

/-- `key_extractor` (`main.py` lines 61-65): the case-insensitive six-field
key of a rule, evaluated left to right; `none` embeds the raised exception
when a field is missing or not a string. -/
def key_extractor (dic : Rule) : Option (List String) :=
  (getStrLower dic "policy").bind fun p =>
  (getStrLower dic "protocol").bind fun pr =>
  (getStrLower dic "srcCidr").bind fun sc =>
  (getStrLower dic "destCidr").bind fun dc =>
  (getStrLower dic "srcPort").bind fun sp =>
  (getStrLower dic "destPort").bind fun dp =>
  some [p, pr, sc, dc, sp, dp]

/-- The sentinel default-rule key skipped in `combine_lists` (line 71). -/
def defaultKey : List String := ["allow", "any", "any", "any", "any", "any"]

/-- Second loop of `combine_lists` (lines 79-83): append each new rule whose
key is not yet seen. `seen` is the set of keys (membership only), `acc` the
output built so far. -/
def addNewRules : List (List String) → List Rule → List Rule → Option (List Rule)
  | _, acc, [] => some acc
  | seen, acc, r :: rs =>
    match key_extractor r with
    | some k =>
      if k ∈ seen then addNewRules seen acc rs
      else addNewRules (k :: seen) (acc ++ [r]) rs
    | Option.none => Option.none

/-- First loop of `combine_lists` (lines 68-76): keep every existing rule
except the default rule, recording keys, then fall through to the second
loop. -/
def addExistingRules : List (List String) → List Rule → List Rule → List Rule → Option (List Rule)
  | seen, acc, [], news => addNewRules seen acc news
  | seen, acc, r :: rs, news =>
    match key_extractor r with
    | some k =>
      if k = defaultKey then addExistingRules seen acc rs news
      else addExistingRules (k :: seen) (acc ++ [r]) rs news
    | Option.none => Option.none

/-- `combine_lists` (`main.py` lines 49-85). -/
def combine_lists (existing_rules new_rules : List Rule) : Option (List Rule) :=
  addExistingRules [] [] existing_rules new_rules

/-- The rules of `existing` kept by the first loop (every rule whose key is
not the default key), in order. -/
def keptRules : List Rule → List Rule
  | [] => []
  | r :: rs => if key_extractor r = some defaultKey then keptRules rs else r :: keptRules rs

/-- The keys recorded by the first loop, in order. -/
def keptKeys : List Rule → List (List String)
  | [] => []
  | r :: rs =>
    match key_extractor r with
    | some k => if k = defaultKey then keptKeys rs else k :: keptKeys rs
    | Option.none => keptKeys rs

/-- The rules appended by the second loop from `news` given already-seen keys
`seen`: first occurrence of each unseen key wins. -/
def freshRules : List (List String) → List Rule → List Rule
  | _, [] => []
  | seen, r :: rs =>
    match key_extractor r with
    | some k => if k ∈ seen then freshRules seen rs else r :: freshRules (k :: seen) rs
    | Option.none => []

/-- Name→id dictionary lookup (Python dict, embedded as association list). -/
def lookupName : List (String × String) → String → Option String
  | [], _ => Option.none
  | (k, v) :: rest, n => if k = n then some v else lookupName rest n

/-- Python dict assignment `m[name] = id`: replace in place if the key
exists, else append. -/
def insertName (m : List (String × String)) (name id : String) : List (String × String) :=
  if (lookupName m name).isSome then
    m.map (fun p => if p.1 = name then (name, id) else p)
  else m ++ [(name, id)]

/-- The keys of a name→id dictionary. -/
def keysOf (m : List (String × String)) : List String := m.map Prod.fst

/-- The reference index of `MERAKI_API`: the two name→id mappings
(`meraki_api.py` lines 43-53). -/
structure ApiState where
  policy_objects_name_to_id : List (String × String)
  policy_group_objects_name_to_id : List (String × String)
deriving DecidableEq, Repr

/-- `MERAKI_API.__init__` catalog loop (lines 44-46 / 50-53): build a name→id
dict from the listed entities by successive dict assignment. -/
def build_index (entities : List (String × String)) : List (String × String) :=
  entities.foldl (fun m p => insertName m p.1 p.2) []

/-- `MERAKI_API.create_policy_objects` (lines 101-116): on remote success the
new name→id entry is registered; on error the state is unchanged and the
(status, message) pair is returned. -/
def create_policy_objects (api : ApiState) (name : String)
    (remote : Except (String × String) String) : ApiState × Option (String × String) :=
  match remote with
  | Except.ok oid =>
    ({ api with policy_objects_name_to_id := insertName api.policy_objects_name_to_id name oid },
     Option.none)
  | Except.error e => (api, some e)

/-- `MERAKI_API.create_policy_object_groups` (lines 118-134). -/
def create_policy_object_groups (api : ApiState) (name : String)
    (remote : Except (String × String) String) : ApiState × Option (String × String) :=
  match remote with
  | Except.ok gid =>
    ({ api with
        policy_group_objects_name_to_id := insertName api.policy_group_objects_name_to_id name gid },
     Option.none)
  | Except.error e => (api, some e)

/-- `translate_cidr_to_objects` (`main.py` lines 30-46): objects first, then
groups, else the string unchanged. -/
def translate_cidr_to_objects (api : ApiState) (cidr : String) : String :=
  match lookupName api.policy_objects_name_to_id cidr with
  | some objId => "OBJ(" ++ objId ++ ")"
  | Option.none =>
    match lookupName api.policy_group_objects_name_to_id cidr with
    | some gid => "GRP(" ++ gid ++ ")"
    | Option.none => cidr

/-- One remote call issued by the driver, with a mutation's payload. -/
inductive RemoteCall where
  | groupCreate (name : String)
  | objectCreate (name : String) (groupId : Option String)
  | listNetworks
  | getRules (net : String)
  | updateRules (net : String) (rules : List Rule)
deriving DecidableEq, Repr

/-- Remote mutations in the sense of the spec: object creation, group
creation, rule update (listing and fetching are reads). -/
def isMutation : RemoteCall → Bool
  | RemoteCall.groupCreate _ => true
  | RemoteCall.objectCreate _ _ => true
  | RemoteCall.updateRules _ _ => true
  | _ => false

/-- Calls issued by Step 1 of the driver (object/group creation only). -/
def isStep1Call : RemoteCall → Bool
  | RemoteCall.groupCreate _ => true
  | RemoteCall.objectCreate _ _ => true
  | _ => false

/-- Oracle for the remote side: the outcome of each remote call. Creation
outcomes may depend on the full history of calls issued so far, so a retried
call may fail first and succeed later. -/
structure Remote where
  createGroup : List RemoteCall → Except (String × String) String
  createObject : List RemoteCall → Except (String × String) String
  listNets : Except (String × String) (List String)
  getRules : String → Except (String × String) (List Rule)

/-- One row of `policy_objects.csv` as far as the driver inspects it:
the object name and the `_group_name` column (absent, empty, or a name). -/
structure PolicyRow where
  name : String
  group_name : Option String
deriving DecidableEq, Repr

/-- Driver state: the reference index plus the log of remote calls issued. -/
structure RunState where
  api : ApiState
  calls : List RemoteCall

/-- Issue the object-creation call (`main.py` line 130) and register the new
object on success (`meraki_api.create_policy_objects`). -/
def create_object_step (rm : Remote) (st : RunState) (name : String)
    (groupId : Option String) : RunState :=
  let calls := st.calls ++ [RemoteCall.objectCreate name groupId]
  match create_policy_objects st.api name (rm.createObject calls) with
  | (api2, _) => { api := api2, calls := calls }

/-- Step-1 processing of one CSV row (`main.py` lines 107-134): resolve or
create the named group (skipping object creation when group creation fails),
then create the object. -/
def process_row (rm : Remote) (st : RunState) (row : PolicyRow) : RunState :=
  match row.group_name with
  | Option.none => create_object_step rm st row.name Option.none
  | some g =>
    if g = "" then create_object_step rm st row.name Option.none
    else
      match lookupName st.api.policy_group_objects_name_to_id g with
      | some gid => create_object_step rm st row.name (some gid)
      | Option.none =>
        let calls := st.calls ++ [RemoteCall.groupCreate g]
        match create_policy_object_groups st.api g (rm.createGroup calls) with
        | (_, some _) => { st with calls := calls }
        | (api2, Option.none) =>
          let st2 : RunState := { api := api2, calls := calls }
          match lookupName api2.policy_group_objects_name_to_id g with
          | some gid => create_object_step rm st2 row.name (some gid)
          | Option.none => st2

/-- Step 1 over all rows of `policy_objects.csv` (lines 107-134). -/
def process_rows (rm : Remote) (st : RunState) (rows : List PolicyRow) : RunState :=
  rows.foldl (process_row rm) st

/-- Python dict assignment `dic[field] = v` on a rule dict. -/
def setField (r : Rule) (field : String) (v : PyVal) : Rule :=
  if (lookupField r field).isSome then
    r.map (fun p => if p.1 = field then (field, v) else p)
  else r ++ [(field, v)]

/-- Rule translation (`main.py` lines 147-150): rewrite `srcCidr` and
`destCidr` through the translator; `none` embeds the `KeyError`/attribute
crash when a field is missing or not a string. -/
def translate_rule (api : ApiState) (r : Rule) : Option Rule :=
  match lookupField r "srcCidr" with
  | some (PyVal.vstr s) =>
    let r1 := setField r "srcCidr" (PyVal.vstr (translate_cidr_to_objects api s))
    match lookupField r1 "destCidr" with
    | some (PyVal.vstr d) =>
      some (setField r1 "destCidr" (PyVal.vstr (translate_cidr_to_objects api d)))
    | _ => Option.none
  | _ => Option.none

/-- Translation of the whole rule table, stopping at the first crash. -/
def translate_rules (api : ApiState) : List Rule → Option (List Rule)
  | [] => some []
  | r :: rs =>
    match translate_rule api r with
    | some r2 => (translate_rules api rs).map (fun rest => r2 :: rest)
    | Option.none => Option.none

/-- The per-network loop (`main.py` lines 165-183). The mutable `l3_rules`
variable is threaded through: in merge mode it is reassigned to the merge
result of each network, exactly as in the source. Returns the call log and
the final value of `l3_rules`; `none` embeds an uncaught exception in
`combine_lists`. -/
def network_loop (rm : Remote) (overwrite : Bool) :
    List String → List Rule → List RemoteCall → Option (List RemoteCall × List Rule)
  | [], rules, calls => some (calls, rules)
  | n :: ns, rules, calls =>
    if overwrite then
      network_loop rm overwrite ns rules (calls ++ [RemoteCall.updateRules n rules])
    else
      let calls1 := calls ++ [RemoteCall.getRules n]
      match rm.getRules n with
      | Except.error _ => network_loop rm overwrite ns rules calls1
      | Except.ok existing =>
        match combine_lists existing rules with
        | some merged =>
          network_loop rm overwrite ns merged (calls1 ++ [RemoteCall.updateRules n merged])
        | Option.none => Option.none

/-- `main` (`main.py` lines 88-183), with the two CSV files as `Option`
(`none` = `FileNotFoundError`) and the confirm prompt as `overwrite`.
Returns the list of remote calls issued; `none` embeds an uncaught crash
(in particular the `TypeError` raised when a failed network listing makes
the loop iterate over the error-message string). -/
def main_run (rm : Remote) (objFile : Option (List PolicyRow))
    (rulesFile : Option (List Rule)) (overwrite : Bool) (initApi : ApiState) :
    Option (List RemoteCall) :=
  match objFile with
  | Option.none => some []
  | some rows =>
    let st1 := process_rows rm { api := initApi, calls := [] } rows
    match rulesFile with
    | Option.none => some st1.calls
    | some rules =>
      match translate_rules st1.api rules with
      | Option.none => Option.none
      | some translated =>
        let calls2 := st1.calls ++ [RemoteCall.listNetworks]
        match rm.listNets with
        | Except.error e =>
          if e.2 = "" then some calls2 else Option.none
        | Except.ok nets =>
          match network_loop rm overwrite nets translated calls2 with
          | some (calls3, _) => some calls3
          | Option.none => Option.none

/-- Occurrences of the group-creation call for `g` in a call log. -/
def countGroupCalls (g : String) : List RemoteCall → Nat
  | [] => 0
  | RemoteCall.groupCreate g2 :: rest =>
    (if g2 = g then 1 else 0) + countGroupCalls g rest
  | _ :: rest => countGroupCalls g rest

/-- Whether a rule dict carries `field` with a string value. -/
def hasStrField (r : Rule) (f : String) : Bool :=
  match lookupField r f with
  | some (PyVal.vstr _) => true
  | _ => false

/-- Invariant for C8: the group-creation call for `g` was issued at most
once, and if it was issued then `g` is now in the group index. -/
def GroupInv (g : String) (st : RunState) : Prop :=
  countGroupCalls g st.calls ≤ 1 ∧
  (countGroupCalls g st.calls = 1 →
    (lookupName st.api.policy_group_objects_name_to_id g).isSome)

/-- Invariant for C8: `g` is in the group index and no group-creation call
for it has been issued. -/
def GroupInv0 (g : String) (st : RunState) : Prop :=
  (lookupName st.api.policy_group_objects_name_to_id g).isSome ∧
  countGroupCalls g st.calls = 0

/-! ## Concrete fixtures used by witnesses and counterexamples -/

/-- A well-formed non-default rule (with a pass-through `comment` column). -/
def ruleA : Rule :=
  [("policy", PyVal.vstr "allow"), ("protocol", PyVal.vstr "tcp"),
   ("srcCidr", PyVal.vstr "any"), ("destCidr", PyVal.vstr "10.0.0.0/8"),
   ("srcPort", PyVal.vstr "any"), ("destPort", PyVal.vstr "443"),
   ("comment", PyVal.vstr "web")]

/-- A second well-formed non-default rule with a distinct key. -/
def ruleB : Rule :=
  [("policy", PyVal.vstr "deny"), ("protocol", PyVal.vstr "any"),
   ("srcCidr", PyVal.vstr "192.168.0.0/16"), ("destCidr", PyVal.vstr "any"),
   ("srcPort", PyVal.vstr "any"), ("destPort", PyVal.vstr "any")]

/-- The default rule, in mixed case: its key is `defaultKey`. -/
def ruleDefault : Rule :=
  [("policy", PyVal.vstr "Allow"), ("protocol", PyVal.vstr "Any"),
   ("srcCidr", PyVal.vstr "Any"), ("destCidr", PyVal.vstr "any"),
   ("srcPort", PyVal.vstr "any"), ("destPort", PyVal.vstr "any")]

/-- A rule carrying all six key fields but a `None` value for `policy`. -/
def ruleNonePolicy : Rule :=
  [("policy", PyVal.vnone), ("protocol", PyVal.vstr "tcp"),
   ("srcCidr", PyVal.vstr "any"), ("destCidr", PyVal.vstr "any"),
   ("srcPort", PyVal.vstr "any"), ("destPort", PyVal.vstr "any")]

/-- Remote where the network listing fails. -/
def rmBad : Remote :=
  { createGroup := fun _ => Except.ok "g1",
    createObject := fun _ => Except.ok "o1",
    listNets := Except.error ("500", "Connection error"),
    getRules := fun _ => Except.ok [] }

/-- Remote with two appliance networks; network `n1` already has `ruleA`. -/
def rmTwoNets : Remote :=
  { createGroup := fun _ => Except.ok "g1",
    createObject := fun _ => Except.ok "o1",
    listNets := Except.ok ["n1", "n2"],
    getRules := fun n => if n = "n1" then Except.ok [ruleA] else Except.ok [] }

/-- Remote where every group creation fails. -/
def rmFailGroup : Remote :=
  { createGroup := fun _ => Except.error ("400", "bad request"),
    createObject := fun _ => Except.ok "o1",
    listNets := Except.ok [],
    getRules := fun _ => Except.ok [] }

/-- Remote where every call succeeds. -/
def rmAllOk : Remote :=
  { createGroup := fun _ => Except.ok "g1",
    createObject := fun _ => Except.ok "o1",
    listNets := Except.ok [],
    getRules := fun _ => Except.ok [] }

/-- Remote where fetching the existing rules of `n1` fails but `n2` works. -/
def rmFetchFail : Remote :=
  { createGroup := fun _ => Except.ok "g1",
    createObject := fun _ => Except.ok "o1",
    listNets := Except.ok ["n1", "n2"],
    getRules := fun n => if n = "n1" then Except.error ("500", "timeout") else Except.ok [] }

/-- A reference index holding one object and one group. -/
def apiW : ApiState := ⟨[("Web-Server", "123")], [("Grp1", "7")]⟩

/-! ## Closed form of the merge engine -/

theorem addNewRules_eq (news : List Rule) :
    ∀ (seen : List (List String)) (acc : List Rule),
    (∀ r ∈ news, (key_extractor r).isSome) →
    addNewRules seen acc news = some (acc ++ freshRules seen news) := by
  induction news with
  | nil => intro seen acc _; simp [addNewRules, freshRules]
  | cons r rs ih =>
    intro seen acc h
    obtain ⟨k, hk⟩ := Option.isSome_iff_exists.mp (h r (List.mem_cons_self r rs))
    have htl : ∀ x ∈ rs, (key_extractor x).isSome :=
      fun x hx => h x (List.mem_cons_of_mem _ hx)
    by_cases hm : k ∈ seen
    · simp only [addNewRules, freshRules, hk, if_pos hm]
      exact ih seen acc htl
    · simp only [addNewRules, freshRules, hk, if_neg hm]
      rw [ih (k :: seen) (acc ++ [r]) htl]
      simp

theorem addExistingRules_eq (ex : List Rule) :
    ∀ (news : List Rule) (seen : List (List String)) (acc : List Rule),
    (∀ r ∈ ex, (key_extractor r).isSome) →
    addExistingRules seen acc ex news
      = addNewRules ((keptKeys ex).reverse ++ seen) (acc ++ keptRules ex) news := by
  induction ex with
  | nil => intro news seen acc _; simp [addExistingRules, keptKeys, keptRules]
  | cons r rs ih =>
    intro news seen acc h
    obtain ⟨k, hk⟩ := Option.isSome_iff_exists.mp (h r (List.mem_cons_self r rs))
    have htl : ∀ x ∈ rs, (key_extractor x).isSome :=
      fun x hx => h x (List.mem_cons_of_mem _ hx)
    by_cases hd : k = defaultKey
    · have h1 : keptKeys (r :: rs) = keptKeys rs := by simp [keptKeys, hk, hd]
      have h2 : keptRules (r :: rs) = keptRules rs := by simp [keptRules, hk, hd]
      simp only [addExistingRules, hk, if_pos hd]
      rw [ih news seen acc htl, h1, h2]
    · have h1 : keptKeys (r :: rs) = k :: keptKeys rs := by simp [keptKeys, hk, hd]
      have h2 : keptRules (r :: rs) = r :: keptRules rs := by simp [keptRules, hk, hd]
      simp only [addExistingRules, hk, if_neg hd]
      rw [ih news (k :: seen) (acc ++ [r]) htl, h1, h2]
      simp

/-- `combine_lists` computes: kept existing rules first, then the fresh
incoming rules, with the kept keys as the initially seen set. -/
theorem combine_lists_eq (ex news : List Rule)
    (hex : ∀ r ∈ ex, (key_extractor r).isSome)
    (hnews : ∀ r ∈ news, (key_extractor r).isSome) :
    combine_lists ex news
      = some (keptRules ex ++ freshRules ((keptKeys ex).reverse) news) := by
  unfold combine_lists
  rw [addExistingRules_eq ex news [] [] hex, addNewRules_eq news _ _ hnews]
  simp

/-! ## Properties of the merge components -/

theorem keptRules_sublist (ex : List Rule) : List.Sublist (keptRules ex) ex := by
  induction ex with
  | nil => simp [keptRules]
  | cons r rs ih =>
    by_cases hd : key_extractor r = some defaultKey
    · simp only [keptRules, if_pos hd]
      exact List.Sublist.cons r ih
    · simp only [keptRules, if_neg hd]
      exact List.Sublist.cons₂ r ih

theorem keptRules_not_default (ex : List Rule) :
    ∀ r ∈ keptRules ex, key_extractor r ≠ some defaultKey := by
  induction ex with
  | nil => intro r hr; simp [keptRules] at hr
  | cons r0 rs ih =>
    intro r hr
    by_cases hd : key_extractor r0 = some defaultKey
    · rw [keptRules, if_pos hd] at hr
      exact ih r hr
    · rw [keptRules, if_neg hd] at hr
      rcases List.mem_cons.mp hr with h1 | h2
      · rw [h1]; exact hd
      · exact ih r h2

theorem keptRules_map_key (ex : List Rule)
    (hex : ∀ r ∈ ex, (key_extractor r).isSome) :
    (keptRules ex).map key_extractor = (keptKeys ex).map some := by
  induction ex with
  | nil => simp [keptRules, keptKeys]
  | cons r rs ih =>
    obtain ⟨k, hk⟩ := Option.isSome_iff_exists.mp (hex r (List.mem_cons_self r rs))
    have htl : ∀ x ∈ rs, (key_extractor x).isSome :=
      fun x hx => hex x (List.mem_cons_of_mem _ hx)
    by_cases hd : k = defaultKey
    · have h1 : keptKeys (r :: rs) = keptKeys rs := by simp [keptKeys, hk, hd]
      have h2 : keptRules (r :: rs) = keptRules rs := by simp [keptRules, hk, hd]
      rw [h1, h2, ih htl]
    · have h1 : keptKeys (r :: rs) = k :: keptKeys rs := by simp [keptKeys, hk, hd]
      have h2 : keptRules (r :: rs) = r :: keptRules rs := by simp [keptRules, hk, hd]
      rw [h1, h2, List.map_cons, List.map_cons, ih htl, hk]

theorem freshRules_sublist (news : List Rule) :
    ∀ seen, List.Sublist (freshRules seen news) news := by
  induction news with
  | nil => intro seen; simp [freshRules]
  | cons r rs ih =>
    intro seen
    cases hk : key_extractor r with
    | none => simp only [freshRules, hk]; exact List.nil_sublist _
    | some k =>
      by_cases hm : k ∈ seen
      · simp only [freshRules, hk, if_pos hm]
        exact List.Sublist.cons r (ih seen)
      · simp only [freshRules, hk, if_neg hm]
        exact List.Sublist.cons₂ r (ih (k :: seen))

theorem freshRules_key_not_seen (news : List Rule) :
    ∀ seen, (∀ r ∈ news, (key_extractor r).isSome) →
    ∀ r ∈ freshRules seen news, ∀ k, key_extractor r = some k → k ∉ seen := by
  induction news with
  | nil => intro seen _ r hr; simp [freshRules] at hr
  | cons r0 rs ih =>
    intro seen h r hr k hk hks
    obtain ⟨k0, hk0⟩ := Option.isSome_iff_exists.mp (h r0 (List.mem_cons_self r0 rs))
    have htl : ∀ x ∈ rs, (key_extractor x).isSome :=
      fun x hx => h x (List.mem_cons_of_mem _ hx)
    simp only [freshRules, hk0] at hr
    by_cases hm : k0 ∈ seen
    · rw [if_pos hm] at hr
      exact ih seen htl r hr k hk hks
    · rw [if_neg hm] at hr
      rcases List.mem_cons.mp hr with h1 | h2
      · subst h1
        rw [hk0] at hk
        exact hm (Option.some.inj hk ▸ hks)
      · exact ih (k0 :: seen) htl r h2 k hk (List.mem_cons_of_mem k0 hks)

theorem freshRules_keys_pairwise (news : List Rule) :
    ∀ seen, (∀ r ∈ news, (key_extractor r).isSome) →
    (freshRules seen news).Pairwise (fun a b => key_extractor a ≠ key_extractor b) := by
  induction news with
  | nil => intro seen _; simp [freshRules]
  | cons r0 rs ih =>
    intro seen h
    obtain ⟨k0, hk0⟩ := Option.isSome_iff_exists.mp (h r0 (List.mem_cons_self r0 rs))
    have htl : ∀ x ∈ rs, (key_extractor x).isSome :=
      fun x hx => h x (List.mem_cons_of_mem _ hx)
    simp only [freshRules, hk0]
    by_cases hm : k0 ∈ seen
    · rw [if_pos hm]; exact ih seen htl
    · rw [if_neg hm]
      refine List.Pairwise.cons ?_ (ih (k0 :: seen) htl)
      intro b hb
      have hbrs : b ∈ rs := (freshRules_sublist rs (k0 :: seen)).subset hb
      obtain ⟨kb, hkb⟩ := Option.isSome_iff_exists.mp (htl b hbrs)
      have : kb ∉ k0 :: seen :=
        freshRules_key_not_seen rs (k0 :: seen) htl b hb kb hkb
      rw [hk0, hkb]
      intro heq
      exact this (Option.some.inj heq ▸ List.mem_cons_self k0 seen)

theorem freshRules_covers (news : List Rule) :
    ∀ seen, (∀ r ∈ news, (key_extractor r).isSome) →
    ∀ r ∈ news, ∀ k, key_extractor r = some k → k ∉ seen →
    ∃ r2 ∈ freshRules seen news, key_extractor r2 = some k := by
  induction news with
  | nil => intro seen _ r hr; simp at hr
  | cons r0 rs ih =>
    intro seen h r hr k hk hks
    obtain ⟨k0, hk0⟩ := Option.isSome_iff_exists.mp (h r0 (List.mem_cons_self r0 rs))
    have htl : ∀ x ∈ rs, (key_extractor x).isSome :=
      fun x hx => h x (List.mem_cons_of_mem _ hx)
    simp only [freshRules, hk0]
    by_cases hm : k0 ∈ seen
    · rw [if_pos hm]
      rcases List.mem_cons.mp hr with h1 | h2
      · subst h1; rw [hk0] at hk
        exact absurd (Option.some.inj hk ▸ hm) hks
      · exact ih seen htl r h2 k hk hks
    · rw [if_neg hm]
      by_cases hkk : k = k0
      · refine ⟨r0, List.mem_cons_self r0 _, ?_⟩
        rw [hk0, hkk]
      · rcases List.mem_cons.mp hr with h1 | h2
        · subst h1; rw [hk0] at hk
          exact absurd (Option.some.inj hk).symm hkk
        · obtain ⟨r2, hr2, hkr2⟩ := ih (k0 :: seen) htl r h2 k hk (by
            intro hcon
            rcases List.mem_cons.mp hcon with hc1 | hc2
            · exact hkk hc1
            · exact hks hc2)
          exact ⟨r2, List.mem_cons_of_mem r0 hr2, hkr2⟩

/-! ## Key extraction lemmas -/

theorem key_extractor_congr (r1 r2 : Rule)
    (h : ∀ f ∈ key_fields, getStrLower r1 f = getStrLower r2 f) :
    key_extractor r1 = key_extractor r2 := by
  have h1 := h "policy" (by simp [key_fields])
  have h2 := h "protocol" (by simp [key_fields])
  have h3 := h "srcCidr" (by simp [key_fields])
  have h4 := h "destCidr" (by simp [key_fields])
  have h5 := h "srcPort" (by simp [key_fields])
  have h6 := h "destPort" (by simp [key_fields])
  simp only [key_extractor, h1, h2, h3, h4, h5, h6]

theorem key_extractor_isSome_of_fields (r : Rule)
    (h : ∀ f ∈ key_fields, ∃ s, lookupField r f = some (PyVal.vstr s)) :
    (key_extractor r).isSome := by
  obtain ⟨s1, h1⟩ := h "policy" (by simp [key_fields])
  obtain ⟨s2, h2⟩ := h "protocol" (by simp [key_fields])
  obtain ⟨s3, h3⟩ := h "srcCidr" (by simp [key_fields])
  obtain ⟨s4, h4⟩ := h "destCidr" (by simp [key_fields])
  obtain ⟨s5, h5⟩ := h "srcPort" (by simp [key_fields])
  obtain ⟨s6, h6⟩ := h "destPort" (by simp [key_fields])
  simp [key_extractor, getStrLower, h1, h2, h3, h4, h5, h6]

/-- No two rules of the merge output carry the same case-insensitive key,
provided the kept existing keys are themselves distinct. -/
theorem combined_keys_nodup (ex news : List Rule)
    (hex : ∀ r ∈ ex, (key_extractor r).isSome)
    (hnews : ∀ r ∈ news, (key_extractor r).isSome)
    (hnd : (keptKeys ex).Nodup) :
    ((keptRules ex ++ freshRules ((keptKeys ex).reverse) news).map key_extractor).Nodup := by
  rw [List.map_append, List.nodup_append]
  refine ⟨?_, ?_, ?_⟩
  · rw [keptRules_map_key ex hex]
    exact hnd.map (Option.some_injective _)
  · have hp := freshRules_keys_pairwise news ((keptKeys ex).reverse) hnews
    exact List.pairwise_map.mpr hp
  · intro x hx1 hx2
    rw [keptRules_map_key ex hex] at hx1
    obtain ⟨kx, hkx, hxeq⟩ := List.mem_map.mp hx1
    obtain ⟨b, hb, hkb⟩ := List.mem_map.mp hx2
    have hbk : key_extractor b = some kx := by rw [hkb, ← hxeq]
    have hnot := freshRules_key_not_seen news ((keptKeys ex).reverse) hnews b hb kx hbk
    exact hnot (List.mem_reverse.mpr hkx)

/-! ## C1: merge dedup / order preservation -/

/-- C1 (amended): for inputs whose rules all carry the six key fields
(`(key_extractor r).isSome`), `combine_lists` succeeds; provided the
non-default existing rules have pairwise-distinct keys, its output has no
two rules with an equal case-insensitive six-field key; and in any case it
begins with exactly the non-default rules of `existing` in original order;
the remainder is exactly the first-occurrence filter of `incoming` against
the kept existing keys, a sublist (order preserving) of `incoming`; every
incoming rule with a genuinely new key is represented in the output; and
rules differing only in the letter case of the six fields have the same
key. -/
theorem combine_lists_merge_spec (ex news : List Rule)
    (hex : ∀ r ∈ ex, (key_extractor r).isSome)
    (hnews : ∀ r ∈ news, (key_extractor r).isSome) :
    ∃ out, combine_lists ex news = some out
      ∧ ((keptKeys ex).Nodup → (out.map key_extractor).Nodup)
      ∧ out.take (keptRules ex).length = keptRules ex
      ∧ out.drop (keptRules ex).length = freshRules ((keptKeys ex).reverse) news
      ∧ List.Sublist (freshRules ((keptKeys ex).reverse) news) news
      ∧ (∀ r ∈ news, ∀ k, key_extractor r = some k → k ∉ keptKeys ex →
          ∃ r2 ∈ out, key_extractor r2 = some k)
      ∧ (∀ r1 r2 : Rule,
          (∀ f ∈ key_fields, ∃ s1 s2, lookupField r1 f = some (PyVal.vstr s1) ∧
            lookupField r2 f = some (PyVal.vstr s2) ∧ strLower s1 = strLower s2) →
          key_extractor r1 = key_extractor r2) := by
  refine ⟨keptRules ex ++ freshRules ((keptKeys ex).reverse) news,
    combine_lists_eq ex news hex hnews,
    fun hnd => combined_keys_nodup ex news hex hnews hnd, ?_, ?_,
    freshRules_sublist news _, ?_, ?_⟩
  · exact List.take_left _ _
  · exact List.drop_left _ _
  · intro r hr k hk hkk
    obtain ⟨r2, hr2, hkr2⟩ := freshRules_covers news ((keptKeys ex).reverse) hnews r hr k hk
      (fun hc => hkk (List.mem_reverse.mp hc))
    exact ⟨r2, List.mem_append_right _ hr2, hkr2⟩
  · intro r1 r2 hf
    apply key_extractor_congr
    intro f hfm
    obtain ⟨s1, s2, e1, e2, es⟩ := hf f hfm
    simp [getStrLower, e1, e2, es]

/-- C1 counterexample: with a duplicated (well-formed, non-default) rule in
`existing`, the merge output contains two rules with equal keys — the claim
fails without the distinctness proviso. -/
theorem merge_dedup_claim_counterexample :
    (∀ r ∈ [ruleA, ruleA], (key_extractor r).isSome)
    ∧ combine_lists [ruleA, ruleA] [] = some [ruleA, ruleA]
    ∧ ¬ (([ruleA, ruleA].map key_extractor).Nodup) :=
  ⟨by decide, by decide, by decide⟩

/-- Witness for C1 at a concrete input. -/
theorem combine_lists_merge_spec_witness :
    ((∀ r ∈ [ruleDefault, ruleA], (key_extractor r).isSome)
      ∧ (∀ r ∈ [ruleA, ruleB], (key_extractor r).isSome))
    ∧ (∃ out, combine_lists [ruleDefault, ruleA] [ruleA, ruleB] = some out
      ∧ ((keptKeys [ruleDefault, ruleA]).Nodup → (out.map key_extractor).Nodup)
      ∧ out.take (keptRules [ruleDefault, ruleA]).length = keptRules [ruleDefault, ruleA]
      ∧ out.drop (keptRules [ruleDefault, ruleA]).length
          = freshRules ((keptKeys [ruleDefault, ruleA]).reverse) [ruleA, ruleB]
      ∧ List.Sublist (freshRules ((keptKeys [ruleDefault, ruleA]).reverse) [ruleA, ruleB])
          [ruleA, ruleB]
      ∧ (∀ r ∈ [ruleA, ruleB], ∀ k, key_extractor r = some k →
          k ∉ keptKeys [ruleDefault, ruleA] → ∃ r2 ∈ out, key_extractor r2 = some k)
      ∧ (∀ r1 r2 : Rule,
          (∀ f ∈ key_fields, ∃ s1 s2, lookupField r1 f = some (PyVal.vstr s1) ∧
            lookupField r2 f = some (PyVal.vstr s2) ∧ strLower s1 = strLower s2) →
          key_extractor r1 = key_extractor r2)) :=
  ⟨⟨by decide, by decide⟩,
   combine_lists_merge_spec [ruleDefault, ruleA] [ruleA, ruleB]
     (by decide) (by decide)⟩

/-! ## C5: default-rule suppression -/

/-- C5 (amended): on well-formed inputs, every rule of the merge output
whose case-insensitive key is the default key `(allow, any, any, any, any,
any)` is an element of the incoming list — the default-key occurrences of
`existing` are never carried into the output. -/
theorem default_rule_from_existing_suppressed (ex news out : List Rule)
    (hex : ∀ r ∈ ex, (key_extractor r).isSome)
    (hnews : ∀ r ∈ news, (key_extractor r).isSome)
    (hout : combine_lists ex news = some out) :
    ∀ r ∈ out, key_extractor r = some defaultKey → r ∈ news := by
  rw [combine_lists_eq ex news hex hnews] at hout
  have heq : keptRules ex ++ freshRules ((keptKeys ex).reverse) news = out :=
    Option.some.inj hout
  intro r hr hk
  rw [← heq] at hr
  rcases List.mem_append.mp hr with h1 | h2
  · exact absurd hk (keptRules_not_default ex r h1)
  · exact (freshRules_sublist news _).subset h2

/-- C5 counterexample: the claim as stated ("never appears in the merge
output, for any incoming list") fails when the incoming list itself contains
the default rule: the default-key rule of `existing` is then a member of the
output. -/
theorem default_rule_claim_counterexample :
    key_extractor ruleDefault = some defaultKey
    ∧ combine_lists [ruleDefault] [ruleDefault] = some [ruleDefault]
    ∧ ruleDefault ∈ [ruleDefault] :=
  ⟨by decide, by decide, by decide⟩

/-- Witness for C5 at a concrete input. -/
theorem default_rule_suppressed_witness :
    ((∀ r ∈ [ruleDefault, ruleA], (key_extractor r).isSome)
      ∧ (∀ r ∈ [ruleB], (key_extractor r).isSome)
      ∧ combine_lists [ruleDefault, ruleA] [ruleB] = some [ruleA, ruleB])
    ∧ (∀ r ∈ [ruleA, ruleB], key_extractor r = some defaultKey → r ∈ [ruleB]) :=
  ⟨⟨by decide, by decide, by decide⟩,
   default_rule_from_existing_suppressed [ruleDefault, ruleA] [ruleB] [ruleA, ruleB]
     (by decide) (by decide) (by decide)⟩

/-! ## C9: totality precondition of the merge -/

/-- C9: if every rule of both lists carries all six key fields with string
values, `combine_lists` returns a list; and there are inputs violating the
precondition — a rule missing the key fields, and a rule whose `policy`
field holds `None` — on which the merge raises instead (embedded as
`Option.none`). -/
theorem hasStrField_exists (r : Rule) (f : String) :
    hasStrField r f = true → ∃ s, lookupField r f = some (PyVal.vstr s) := by
  unfold hasStrField
  cases h : lookupField r f with
  | none => simp
  | some v =>
    cases v with
    | vstr s => exact fun _ => ⟨s, rfl⟩
    | vnone => simp

theorem combine_lists_totality (ex news : List Rule)
    (h : ∀ r ∈ ex ++ news, ∀ f ∈ key_fields, hasStrField r f = true) :
    (combine_lists ex news).isSome
    ∧ combine_lists [[]] [] = Option.none
    ∧ combine_lists [ruleNonePolicy] [] = Option.none
    ∧ combine_lists [] [ruleNonePolicy] = Option.none := by
  refine ⟨?_, by decide, by decide, by decide⟩
  have hex : ∀ r ∈ ex, (key_extractor r).isSome := fun r hr =>
    key_extractor_isSome_of_fields r
      (fun f hf => hasStrField_exists r f (h r (List.mem_append_left _ hr) f hf))
  have hnews : ∀ r ∈ news, (key_extractor r).isSome := fun r hr =>
    key_extractor_isSome_of_fields r
      (fun f hf => hasStrField_exists r f (h r (List.mem_append_right _ hr) f hf))
  rw [combine_lists_eq ex news hex hnews]
  rfl

/-- Witness for C9 at a concrete input. -/
theorem combine_lists_totality_witness :
    (∀ r ∈ [ruleA] ++ [ruleB], ∀ f ∈ key_fields, hasStrField r f = true)
    ∧ (combine_lists [ruleA] [ruleB]).isSome
    ∧ combine_lists [[]] [] = Option.none
    ∧ combine_lists [ruleNonePolicy] [] = Option.none
    ∧ combine_lists [] [ruleNonePolicy] = Option.none :=
  ⟨by decide, combine_lists_totality [ruleA] [ruleB] (by decide)⟩

/-! ## C10: a default-key rule in incoming is appended -/

/-- C10: the default-rule skip applies only to the existing list: an
incoming rule with the default key whose key was not recorded from
`existing` is appended to the output. -/
theorem incoming_default_rule_appended :
    key_extractor ruleDefault = some defaultKey
    ∧ defaultKey ∉ keptKeys [ruleA]
    ∧ combine_lists [ruleA] [ruleDefault] = some [ruleA, ruleDefault] :=
  ⟨by decide, by decide, by decide⟩

/-! ## C6: token translator -/

/-- C6: translation returns `OBJ(<id>)` whenever the string is a known
object name (objects take precedence — the group index is not consulted),
`GRP(<id>)` when it is only a known group name, and the input unchanged
otherwise. -/
theorem translate_cidr_spec (api : ApiState) (cidr : String) :
    (∀ oid, lookupName api.policy_objects_name_to_id cidr = some oid →
      translate_cidr_to_objects api cidr = "OBJ(" ++ oid ++ ")")
    ∧ (lookupName api.policy_objects_name_to_id cidr = Option.none →
      ∀ gid, lookupName api.policy_group_objects_name_to_id cidr = some gid →
        translate_cidr_to_objects api cidr = "GRP(" ++ gid ++ ")")
    ∧ (lookupName api.policy_objects_name_to_id cidr = Option.none →
      lookupName api.policy_group_objects_name_to_id cidr = Option.none →
      translate_cidr_to_objects api cidr = cidr) := by
  refine ⟨?_, ?_, ?_⟩
  · intro oid h
    simp [translate_cidr_to_objects, h]
  · intro h gid h2
    simp [translate_cidr_to_objects, h, h2]
  · intro h h2
    simp [translate_cidr_to_objects, h, h2]

/-- Witness for C6: a name that is both an object and a group resolves to
the object reference; a group-only name to the group reference; an unknown
string is the identity. -/
theorem translate_cidr_spec_witness :
    translate_cidr_to_objects ⟨[("Web-Server", "123")], [("Web-Server", "77"), ("Grp1", "7")]⟩
      "Web-Server" = "OBJ(" ++ "123" ++ ")"
    ∧ translate_cidr_to_objects ⟨[("Web-Server", "123")], [("Web-Server", "77"), ("Grp1", "7")]⟩
      "Grp1" = "GRP(" ++ "7" ++ ")"
    ∧ translate_cidr_to_objects ⟨[("Web-Server", "123")], [("Web-Server", "77"), ("Grp1", "7")]⟩
      "10.1.1.0/24" = "10.1.1.0/24" :=
  ⟨(translate_cidr_spec ⟨[("Web-Server", "123")], [("Web-Server", "77"), ("Grp1", "7")]⟩
      "Web-Server").1 "123" (by decide),
   (translate_cidr_spec ⟨[("Web-Server", "123")], [("Web-Server", "77"), ("Grp1", "7")]⟩
      "Grp1").2.1 (by decide) "7" (by decide),
   (translate_cidr_spec ⟨[("Web-Server", "123")], [("Web-Server", "77"), ("Grp1", "7")]⟩
      "10.1.1.0/24").2.2 (by decide) (by decide)⟩

/-! ## Dictionary (reference index) lemmas -/

theorem lookupName_insertName_self (m : List (String × String)) (n id : String) :
    lookupName (insertName m n id) n = some id := by
  unfold insertName
  by_cases h : (lookupName m n).isSome
  · rw [if_pos h]
    induction m with
    | nil => simp [lookupName] at h
    | cons p rest ih =>
      obtain ⟨k, v⟩ := p
      by_cases hp : k = n
      · subst hp
        simp only [List.map_cons]
        rw [if_true]
        simp [lookupName]
      · rw [lookupName, if_neg hp] at h
        simp only [List.map_cons, if_neg hp]
        rw [lookupName, if_neg hp]
        exact ih h
  · rw [if_neg h]
    induction m with
    | nil => simp [lookupName]
    | cons p rest ih =>
      obtain ⟨k, v⟩ := p
      by_cases hp : k = n
      · subst hp
        rw [lookupName] at h
        simp at h
      · rw [lookupName, if_neg hp] at h
        rw [List.cons_append, lookupName, if_neg hp]
        exact ih h

theorem lookupName_insertName_isSome (m : List (String × String)) (n id n2 : String) :
    (lookupName m n2).isSome → (lookupName (insertName m n id) n2).isSome := by
  intro h
  by_cases heq : n2 = n
  · subst heq
    rw [lookupName_insertName_self]
    rfl
  · unfold insertName
    by_cases hm : (lookupName m n).isSome
    · rw [if_pos hm]
      clear hm
      induction m with
      | nil => simp [lookupName] at h
      | cons p rest ih =>
        obtain ⟨k, v⟩ := p
        by_cases hp : k = n2
        · subst hp
          have hkn : ¬(k = n) := heq
          simp only [List.map_cons, if_neg hkn]
          rw [lookupName, if_pos rfl]
          rfl
        · rw [lookupName, if_neg hp] at h
          by_cases hkn : k = n
          · simp only [List.map_cons, if_pos hkn]
            rw [lookupName, if_neg (fun hc => heq hc.symm)]
            exact ih h
          · simp only [List.map_cons, if_neg hkn]
            rw [lookupName, if_neg hp]
            exact ih h
    · rw [if_neg hm]
      clear hm
      induction m with
      | nil => simp [lookupName] at h
      | cons p rest ih =>
        obtain ⟨k, v⟩ := p
        by_cases hp : k = n2
        · subst hp
          rw [List.cons_append, lookupName, if_pos rfl]
          rfl
        · rw [lookupName, if_neg hp] at h
          rw [List.cons_append, lookupName, if_neg hp]
          exact ih h

theorem keysOf_map_set (m : List (String × String)) (n id : String) :
    keysOf (m.map (fun p => if p.1 = n then (n, id) else p)) = keysOf m := by
  induction m with
  | nil => rfl
  | cons p rest ih =>
    obtain ⟨k, v⟩ := p
    by_cases hp : k = n
    · subst hp
      simp only [keysOf, List.map_cons] at ih ⊢
      rw [if_true, ih]
    · simp only [keysOf, List.map_cons, if_neg hp] at ih ⊢
      rw [ih]

theorem lookupName_eq_none_iff (m : List (String × String)) (n : String) :
    lookupName m n = Option.none ↔ n ∉ keysOf m := by
  induction m with
  | nil => simp [lookupName, keysOf]
  | cons p rest ih =>
    obtain ⟨k, v⟩ := p
    by_cases hp : k = n
    · subst hp
      simp [lookupName, keysOf]
    · rw [lookupName, if_neg hp]
      simp only [keysOf, List.map_cons, List.mem_cons]
      rw [ih]
      constructor
      · intro hnone hc
        rcases hc with hc1 | hc2
        · exact hp hc1.symm
        · exact hnone hc2
      · intro hnot hc
        exact hnot (Or.inr hc)

theorem keysOf_insertName_nodup (m : List (String × String)) (n id : String)
    (h : (keysOf m).Nodup) : (keysOf (insertName m n id)).Nodup := by
  unfold insertName
  by_cases hm : (lookupName m n).isSome
  · rw [if_pos hm, keysOf_map_set]
    exact h
  · rw [if_neg hm]
    have hn : n ∉ keysOf m := by
      rw [← lookupName_eq_none_iff]
      exact Option.not_isSome_iff_eq_none.mp hm
    have : keysOf (m ++ [(n, id)]) = keysOf m ++ [n] := by
      simp [keysOf]
    rw [this, List.nodup_append]
    exact ⟨h, List.nodup_singleton n, fun a ha hc => by
      rw [List.mem_singleton] at hc
      exact hn (hc ▸ ha)⟩

theorem build_index_keys_nodup (entities : List (String × String)) :
    (keysOf (build_index entities)).Nodup := by
  have gen : ∀ (l : List (String × String)) (start : List (String × String)),
      (keysOf start).Nodup →
      (keysOf (l.foldl (fun m p => insertName m p.1 p.2) start)).Nodup := by
    intro l
    induction l with
    | nil => intro start h; exact h
    | cons p rest ih =>
      intro start h
      exact ih _ (keysOf_insertName_nodup start p.1 p.2 h)
  exact gen entities [] (by simp [keysOf])

/-! ## C7: reference index invariants -/

/-- C7: (i) a successful object creation returns no error and registers the
name→id entry immediately, visible to lookup and to translation; (ii) the
same for group creation (translation sees the group when no object shadows
the name); (iii) neither operation ever removes an entry from either
mapping, whatever the remote outcome; (iv) both operations preserve
distinctness of the dictionary keys, and the index built from the remote
catalog at startup has distinct keys, so a name maps to at most one
identifier at any time; (v) a failed creation leaves the index unchanged. -/
theorem reference_index_invariants (api : ApiState) (name oid gid : String)
    (e : String × String) :
    ((create_policy_objects api name (Except.ok oid)).2 = Option.none
      ∧ lookupName (create_policy_objects api name
          (Except.ok oid)).1.policy_objects_name_to_id name = some oid
      ∧ translate_cidr_to_objects (create_policy_objects api name (Except.ok oid)).1 name
          = "OBJ(" ++ oid ++ ")")
    ∧ (lookupName (create_policy_object_groups api name
          (Except.ok gid)).1.policy_group_objects_name_to_id name = some gid
      ∧ (lookupName api.policy_objects_name_to_id name = Option.none →
          translate_cidr_to_objects (create_policy_object_groups api name (Except.ok gid)).1
            name = "GRP(" ++ gid ++ ")"))
    ∧ (∀ res : Except (String × String) String, ∀ n : String,
        ((lookupName api.policy_objects_name_to_id n).isSome →
          (lookupName (create_policy_objects api name
            res).1.policy_objects_name_to_id n).isSome)
        ∧ ((lookupName api.policy_group_objects_name_to_id n).isSome →
          (lookupName (create_policy_objects api name
            res).1.policy_group_objects_name_to_id n).isSome)
        ∧ ((lookupName api.policy_objects_name_to_id n).isSome →
          (lookupName (create_policy_object_groups api name
            res).1.policy_objects_name_to_id n).isSome)
        ∧ ((lookupName api.policy_group_objects_name_to_id n).isSome →
          (lookupName (create_policy_object_groups api name
            res).1.policy_group_objects_name_to_id n).isSome))
    ∧ (∀ res, (keysOf api.policy_objects_name_to_id).Nodup →
        (keysOf (create_policy_objects api name res).1.policy_objects_name_to_id).Nodup)
    ∧ (∀ res, (keysOf api.policy_group_objects_name_to_id).Nodup →
        (keysOf (create_policy_object_groups api name
          res).1.policy_group_objects_name_to_id).Nodup)
    ∧ (∀ entities : List (String × String), (keysOf (build_index entities)).Nodup)
    ∧ (create_policy_objects api name (Except.error e)).1 = api
    ∧ (create_policy_object_groups api name (Except.error e)).1 = api := by
  refine ⟨⟨rfl, ?_, ?_⟩, ⟨?_, ?_⟩, ?_, ?_, ?_, build_index_keys_nodup, rfl, rfl⟩
  · exact lookupName_insertName_self _ name oid
  · show translate_cidr_to_objects
      ⟨insertName api.policy_objects_name_to_id name oid,
       api.policy_group_objects_name_to_id⟩ name = "OBJ(" ++ oid ++ ")"
    unfold translate_cidr_to_objects
    rw [lookupName_insertName_self]
  · exact lookupName_insertName_self _ name gid
  · intro hobj
    show translate_cidr_to_objects
      ⟨api.policy_objects_name_to_id,
       insertName api.policy_group_objects_name_to_id name gid⟩ name = "GRP(" ++ gid ++ ")"
    unfold translate_cidr_to_objects
    rw [hobj, lookupName_insertName_self]
  · intro res n
    cases res with
    | ok oid2 =>
      exact ⟨lookupName_insertName_isSome _ name oid2 n, fun h => h,
             fun h => h, lookupName_insertName_isSome _ name oid2 n⟩
    | error e2 => exact ⟨fun h => h, fun h => h, fun h => h, fun h => h⟩
  · intro res h
    cases res with
    | ok oid2 => exact keysOf_insertName_nodup _ name oid2 h
    | error e2 => exact h
  · intro res h
    cases res with
    | ok gid2 => exact keysOf_insertName_nodup _ name gid2 h
    | error e2 => exact h

/-- Witness for C7 at a concrete input. -/
theorem reference_index_invariants_witness :
    lookupName (create_policy_objects apiW "NewObj"
        (Except.ok "55")).1.policy_objects_name_to_id "NewObj" = some "55"
    ∧ translate_cidr_to_objects (create_policy_object_groups apiW "NewGrp"
        (Except.ok "77")).1 "NewGrp" = "GRP(" ++ "77" ++ ")"
    ∧ (lookupName (create_policy_objects apiW "NewObj"
        (Except.ok "55")).1.policy_objects_name_to_id "Web-Server").isSome
    ∧ (keysOf (create_policy_objects apiW "NewObj"
        (Except.ok "55")).1.policy_objects_name_to_id).Nodup :=
  ⟨(reference_index_invariants apiW "NewObj" "55" "x" ("500", "m")).1.2.1,
   (reference_index_invariants apiW "NewGrp" "x" "77" ("500", "m")).2.1.2 (by decide),
   ((reference_index_invariants apiW "NewObj" "55" "x" ("500", "m")).2.2.1
      (Except.ok "55") "Web-Server").1 (by decide),
   (reference_index_invariants apiW "NewObj" "55" "x" ("500", "m")).2.2.2.1
      (Except.ok "55") (by decide)⟩


/-! ## Driver (Step 1) lemmas -/

theorem create_object_step_calls (rm : Remote) (st : RunState) (name : String)
    (gid : Option String) :
    (create_object_step rm st name gid).calls
      = st.calls ++ [RemoteCall.objectCreate name gid] := by
  cases h : rm.createObject (st.calls ++ [RemoteCall.objectCreate name gid]) <;>
    simp [create_object_step, create_policy_objects, h]

theorem create_object_step_groups (rm : Remote) (st : RunState) (name : String)
    (gid : Option String) :
    (create_object_step rm st name gid).api.policy_group_objects_name_to_id
      = st.api.policy_group_objects_name_to_id := by
  cases h : rm.createObject (st.calls ++ [RemoteCall.objectCreate name gid]) <;>
    simp [create_object_step, create_policy_objects, h]

theorem process_rows_inv (rm : Remote) (P : RunState → Prop)
    (hstep : ∀ st row, P st → P (process_row rm st row)) :
    ∀ (rows : List PolicyRow) (st : RunState), P st → P (process_rows rm st rows) := by
  intro rows
  induction rows with
  | nil => intro st h; exact h
  | cons row rest ih =>
    intro st h
    exact ih (process_row rm st row) (hstep st row h)

theorem countGroupCalls_append (g : String) (l1 l2 : List RemoteCall) :
    countGroupCalls g (l1 ++ l2) = countGroupCalls g l1 + countGroupCalls g l2 := by
  induction l1 with
  | nil => simp [countGroupCalls]
  | cons c rest ih =>
    cases c <;> simp [countGroupCalls, ih, Nat.add_assoc]

theorem process_row_groupInv (rm : Remote) (g : String)
    (hOK : ∀ h, ∃ i, rm.createGroup h = Except.ok i) :
    ∀ st row, GroupInv g st → GroupInv g (process_row rm st row) := by
  have hobj : ∀ st2 name gid2, GroupInv g st2 →
      GroupInv g (create_object_step rm st2 name gid2) := by
    intro st2 name gid2 hInv2
    obtain ⟨ha, hb⟩ := hInv2
    constructor
    · rw [create_object_step_calls, countGroupCalls_append]
      simpa [countGroupCalls] using ha
    · rw [create_object_step_calls, countGroupCalls_append, create_object_step_groups]
      intro hc
      apply hb
      simpa [countGroupCalls] using hc
  intro st row hInv
  obtain ⟨h1, h2⟩ := hInv
  obtain ⟨rname, rgroup⟩ := row
  cases rgroup with
  | none => exact hobj st rname Option.none ⟨h1, h2⟩
  | some g2 =>
    simp only [process_row]
    by_cases hg2 : g2 = ""
    · rw [if_pos hg2]
      exact hobj st rname Option.none ⟨h1, h2⟩
    · rw [if_neg hg2]
      cases hlk : lookupName st.api.policy_group_objects_name_to_id g2 with
      | some gid => exact hobj st rname (some gid) ⟨h1, h2⟩
      | none =>
        obtain ⟨gid, hckg⟩ := hOK (st.calls ++ [RemoteCall.groupCreate g2])
        rw [hckg]
        simp only [create_policy_object_groups]
        rw [lookupName_insertName_self]
        have hc2 : countGroupCalls g (st.calls ++ [RemoteCall.groupCreate g2])
            = countGroupCalls g st.calls + (if g2 = g then 1 else 0) := by
          rw [countGroupCalls_append]
          simp [countGroupCalls]
        by_cases hgg : g2 = g
        · subst hgg
          have hzero : countGroupCalls g2 st.calls = 0 := by
            rcases Nat.le_one_iff_eq_zero_or_eq_one.mp h1 with h0 | hone
            · exact h0
            · exact absurd (h2 hone) (by rw [hlk]; simp)
          apply hobj
          constructor
          · rw [hc2, hzero]
            simp
          · intro _
            rw [lookupName_insertName_self]
            rfl
        · apply hobj
          constructor
          · rw [hc2, if_neg hgg]
            simpa using h1
          · intro hc
            rw [hc2, if_neg hgg] at hc
            simp at hc
            exact lookupName_insertName_isSome _ g2 gid g (h2 hc)

theorem process_row_groupInv0 (rm : Remote) (g : String) :
    ∀ st row, GroupInv0 g st → GroupInv0 g (process_row rm st row) := by
  have hobj : ∀ st2 name gid2, GroupInv0 g st2 →
      GroupInv0 g (create_object_step rm st2 name gid2) := by
    intro st2 name gid2 hInv2
    obtain ⟨ha, hb⟩ := hInv2
    constructor
    · rw [create_object_step_groups]
      exact ha
    · rw [create_object_step_calls, countGroupCalls_append]
      simp [countGroupCalls, hb]
  intro st row hInv
  obtain ⟨hs, hc⟩ := hInv
  obtain ⟨rname, rgroup⟩ := row
  cases rgroup with
  | none => exact hobj st rname Option.none ⟨hs, hc⟩
  | some g2 =>
    simp only [process_row]
    by_cases hg2 : g2 = ""
    · rw [if_pos hg2]
      exact hobj st rname Option.none ⟨hs, hc⟩
    · rw [if_neg hg2]
      cases hlk : lookupName st.api.policy_group_objects_name_to_id g2 with
      | some gid => exact hobj st rname (some gid) ⟨hs, hc⟩
      | none =>
        have hgg : g2 ≠ g := by
          intro hcon
          rw [hcon] at hlk
          rw [hlk] at hs
          simp at hs
        have hc2 : countGroupCalls g (st.calls ++ [RemoteCall.groupCreate g2])
            = countGroupCalls g st.calls := by
          rw [countGroupCalls_append]
          simp [countGroupCalls, hgg]
        cases hckg : rm.createGroup (st.calls ++ [RemoteCall.groupCreate g2]) with
        | error e =>
          simp only [create_policy_object_groups]
          exact ⟨hs, by rw [hc2]; exact hc⟩
        | ok gid =>
          simp only [create_policy_object_groups]
          rw [lookupName_insertName_self]
          apply hobj
          exact ⟨lookupName_insertName_isSome _ g2 gid g hs, by rw [hc2]; exact hc⟩

/-! ## C8: idempotent group creation -/

/-- C8 (amended): over any sequence of object-definition rows, (i) if every
remote group-creation call succeeds, the group-creation call for a name is
issued at most once in the run (later rows reuse the cached identifier);
(ii) if the group already existed in the remote catalog at startup, no
group-creation call for that name is ever issued. (Without the success
proviso, a failed creation is retried by a later row naming the same
group.) -/
theorem group_creation_idempotent (rm : Remote) (rows : List PolicyRow) (g : String)
    (init : ApiState) :
    ((∀ h, ∃ i, rm.createGroup h = Except.ok i) →
      countGroupCalls g (process_rows rm ⟨init, []⟩ rows).calls ≤ 1)
    ∧ ((lookupName init.policy_group_objects_name_to_id g).isSome →
      countGroupCalls g (process_rows rm ⟨init, []⟩ rows).calls = 0) := by
  constructor
  · intro hOK
    have hbase : GroupInv g ⟨init, []⟩ := by
      constructor
      · show countGroupCalls g [] ≤ 1
        simp [countGroupCalls]
      · intro hc
        simp [countGroupCalls] at hc
    exact (process_rows_inv rm (GroupInv g) (process_row_groupInv rm g hOK)
      rows ⟨init, []⟩ hbase).1
  · intro hs
    exact (process_rows_inv rm (GroupInv0 g) (process_row_groupInv0 rm g)
      rows ⟨init, []⟩ ⟨hs, rfl⟩).2

/-- C8 counterexample: when the remote rejects the first creation of group
`grp`, a second row naming `grp` issues a second group-creation call — the
unconditional "at most once per name" fails. -/
theorem group_creation_retry_counterexample :
    (process_rows rmFailGroup ⟨⟨[], []⟩, []⟩
        [⟨"o1", some "grp"⟩, ⟨"o2", some "grp"⟩]).calls
      = [RemoteCall.groupCreate "grp", RemoteCall.groupCreate "grp"]
    ∧ countGroupCalls "grp"
        [RemoteCall.groupCreate "grp", RemoteCall.groupCreate "grp"] = 2
    ∧ ¬((2 : Nat) ≤ 1) :=
  ⟨by decide, by decide, by decide⟩

/-- Witness for C8 at a concrete input. -/
theorem group_creation_idempotent_witness :
    countGroupCalls "grp" (process_rows rmAllOk ⟨⟨[], [("grp", "9")]⟩, []⟩
        [⟨"o1", some "grp"⟩, ⟨"o2", some "grp"⟩]).calls ≤ 1
    ∧ countGroupCalls "grp" (process_rows rmAllOk ⟨⟨[], [("grp", "9")]⟩, []⟩
        [⟨"o1", some "grp"⟩, ⟨"o2", some "grp"⟩]).calls = 0 :=
  ⟨(group_creation_idempotent rmAllOk [⟨"o1", some "grp"⟩, ⟨"o2", some "grp"⟩]
      "grp" ⟨[], [("grp", "9")]⟩).1 (fun _ => ⟨"g1", rfl⟩),
   (group_creation_idempotent rmAllOk [⟨"o1", some "grp"⟩, ⟨"o2", some "grp"⟩]
      "grp" ⟨[], [("grp", "9")]⟩).2 (by decide)⟩

/-! ## C3: missing input tables -/

theorem process_row_step1 (rm : Remote) :
    ∀ st row, (∀ c ∈ st.calls, isStep1Call c = true) →
    ∀ c ∈ (process_row rm st row).calls, isStep1Call c = true := by
  have hobj : ∀ st2 name gid2, (∀ c ∈ st2.calls, isStep1Call c = true) →
      ∀ c ∈ (create_object_step rm st2 name gid2).calls, isStep1Call c = true := by
    intro st2 name gid2 h2 c hc
    rw [create_object_step_calls] at hc
    rcases List.mem_append.mp hc with h3 | h3
    · exact h2 c h3
    · rw [List.mem_singleton] at h3
      subst h3
      rfl
  intro st row h
  obtain ⟨rname, rgroup⟩ := row
  cases rgroup with
  | none => exact hobj st rname Option.none h
  | some g2 =>
    simp only [process_row]
    by_cases hg2 : g2 = ""
    · rw [if_pos hg2]
      exact hobj st rname Option.none h
    · rw [if_neg hg2]
      have hext : ∀ c ∈ st.calls ++ [RemoteCall.groupCreate g2], isStep1Call c = true := by
        intro c hc
        rcases List.mem_append.mp hc with h3 | h3
        · exact h c h3
        · rw [List.mem_singleton] at h3
          subst h3
          rfl
      cases hlk : lookupName st.api.policy_group_objects_name_to_id g2 with
      | some gid => exact hobj st rname (some gid) h
      | none =>
        cases hckg : rm.createGroup (st.calls ++ [RemoteCall.groupCreate g2]) with
        | error e =>
          simp only [create_policy_object_groups]
          exact hext
        | ok gid =>
          simp only [create_policy_object_groups]
          rw [lookupName_insertName_self]
          exact hobj _ rname (some gid) hext

/-- C3 (amended): a missing object/group definition table aborts the run
with no remote call at all; a missing rule definition table aborts the run
before any rule update is issued (though the object/group creations of
Step 1 have already run). -/
theorem missing_tables_abort (rm : Remote) (rulesFile : Option (List Rule))
    (overwrite : Bool) (init : ApiState) (rows : List PolicyRow) :
    main_run rm Option.none rulesFile overwrite init = some []
    ∧ (∀ calls, main_run rm (some rows) Option.none overwrite init = some calls →
        ∀ n rs, RemoteCall.updateRules n rs ∉ calls) := by
  constructor
  · rfl
  · intro calls hc n rs hmem
    have hcalls : (process_rows rm ⟨init, []⟩ rows).calls = calls := by
      simpa [main_run] using hc
    rw [← hcalls] at hmem
    have hall := process_rows_inv rm
      (fun st => ∀ c ∈ st.calls, isStep1Call c = true)
      (process_row_step1 rm) rows ⟨init, []⟩ (by intro c hc2; simp at hc2)
    have := hall _ hmem
    simp [isStep1Call] at this

/-- C3 counterexample: with the object table present (one row) and the rule
table missing, the run aborts only after a remote mutation (the object
creation) has already been issued. -/
theorem missing_rules_table_after_mutation :
    main_run rmAllOk (some [⟨"objX", Option.none⟩]) Option.none false ⟨[], []⟩
      = some [RemoteCall.objectCreate "objX" Option.none]
    ∧ isMutation (RemoteCall.objectCreate "objX" Option.none) = true :=
  ⟨by decide, rfl⟩

/-- Witness for C3 at a concrete input. -/
theorem missing_tables_abort_witness :
    main_run rmAllOk Option.none (some []) false ⟨[], []⟩ = some []
    ∧ RemoteCall.updateRules "n1" [] ∉ [RemoteCall.objectCreate "objX" Option.none] :=
  ⟨(missing_tables_abort rmAllOk (some []) false ⟨[], []⟩ []).1,
   (missing_tables_abort rmAllOk Option.none false ⟨[], []⟩
      [⟨"objX", Option.none⟩]).2 [RemoteCall.objectCreate "objX" Option.none]
      (by decide) "n1" []⟩

/-! ## C2: the incoming side of the merge across networks -/

/-- C2 (code bug): in merge mode the driver reassigns `l3_rules` to the
merge result of each network, so the incoming side for network `n2` is the
output of network `n1`'s merge rather than the translated rule table:
network `n2` (whose own rule set is empty) is pushed `[ruleA, ruleB]`,
although merging its fetched rules with the translated table `[ruleB]`
yields `[ruleB]`. In overwrite mode the translated table is pushed
unchanged to every network. -/
theorem network_loop_rule_table_leak :
    network_loop rmTwoNets false ["n1", "n2"] [ruleB] []
      = some ([RemoteCall.getRules "n1", RemoteCall.updateRules "n1" [ruleA, ruleB],
               RemoteCall.getRules "n2", RemoteCall.updateRules "n2" [ruleA, ruleB]],
              [ruleA, ruleB])
    ∧ rmTwoNets.getRules "n2" = Except.ok []
    ∧ combine_lists [] [ruleB] = some [ruleB]
    ∧ ([ruleA, ruleB] : List Rule) ≠ [ruleB]
    ∧ network_loop rmTwoNets true ["n1", "n2"] [ruleB] []
      = some ([RemoteCall.updateRules "n1" [ruleB], RemoteCall.updateRules "n2" [ruleB]],
              [ruleB]) :=
  ⟨by decide, rfl, by decide, by decide, by decide⟩

/-! ## C4: remote failures -/

/-- C4 (code bug): when the network listing fails, `main` logs the error but
then iterates over the error-message string as if it were the network list,
raising a `TypeError` (embedded as `Option.none`): the run aborts instead of
continuing non-fatally. By contrast, a failed per-network rule fetch is
correctly skipped: network `n1`'s fetch failure only skips `n1`, and `n2`
is still processed. -/
theorem listing_error_crash :
    main_run rmBad (some []) (some []) false ⟨[], []⟩ = Option.none
    ∧ rmBad.listNets = Except.error ("500", "Connection error")
    ∧ network_loop rmFetchFail false ["n1", "n2"] [ruleB] []
      = some ([RemoteCall.getRules "n1", RemoteCall.getRules "n2",
               RemoteCall.updateRules "n2" [ruleB]], [ruleB]) :=
  ⟨by decide, rfl, by decide⟩
